import Mathlib

/-!
Verification of the embedding & retrieval engine of the legal RAG pipeline
(`legal-rag-pipeline.py`), shallowly embedded in Lean 4.

Vectors are modelled as `List ℝ` (the numpy float arrays of the source),
loaded embedding models as optional opaque functions `String → List ℝ`
(the spec treats embedding computation as an opaque `embed(text) -> vector`),
and the FAISS inner-product index as the list of its stored vectors.
-/

namespace LegalRAG

/-- A legal document record (`LegalDocument` dataclass, lines 34-42). -/
structure LegalDocument where
  content : String
  metadata : List (String × String)
  jurisdiction : String
  legal_domain : String
  language : String
  embedding : Option (List ℝ) := none

/-- The set of loaded embedding models held by the pipeline object:
`self.legal_bert_model` and `self.embeddings_model`, each either absent
(`None`) or an opaque encode function. -/
structure Models where
  legal_bert_model : Option (String → List ℝ)
  embeddings_model : Option (String → List ℝ)

/-- Which branch of `_generate_embedding` produced the result. -/
inductive EmbedChoice where
  | legalBert
  | general
  | fallbackZero
deriving DecidableEq

/-- `_generate_embedding` (lines 278-287): legal BERT if loaded and the text is
shorter than 512 characters; else the general embeddings model if loaded; else
log an error and return the 384-dimensional zero vector. The two model encode
calls (`_generate_legal_bert_embedding`, `encode`) are the opaque model
functions. -/
def generate_embedding (m : Models) (text : String) : List ℝ :=
  match m.legal_bert_model with
  | some f =>
      if text.length < 512 then f text
      else
        match m.embeddings_model with
        | some g => g text
        | none => List.replicate 384 0
  | none =>
      match m.embeddings_model with
      | some g => g text
      | none => List.replicate 384 0

/-- The branch of `_generate_embedding` taken for a given input: same
conditionals as `generate_embedding` (lines 281-287). -/
def embedChoice (m : Models) (text : String) : EmbedChoice :=
  match m.legal_bert_model with
  | some _ =>
      if text.length < 512 then .legalBert
      else
        match m.embeddings_model with
        | some _ => .general
        | none => .fallbackZero
  | none =>
      match m.embeddings_model with
      | some _ => .general
      | none => .fallbackZero

/-- A source record as parsed from JSON: each field may be missing
(`doc_data.get(key, default)` in lines 237-241). -/
structure DocData where
  content : Option String
  metadata : Option (List (String × String))
  jurisdiction : Option String
  legal_domain : Option String
  language : Option String

/-- Construction of a `LegalDocument` from one source record plus its
synchronously generated embedding (lines 236-245): missing fields are filled
with the fixed defaults of `doc_data.get`. -/
def mkLegalDocument (m : Models) (d : DocData) : LegalDocument :=
  let content := d.content.getD ""
  { content := content
    metadata := d.metadata.getD []
    jurisdiction := d.jurisdiction.getD "federal"
    legal_domain := d.legal_domain.getD "general"
    language := d.language.getD "en"
    embedding := some (generate_embedding m content) }

/-- One parsed record of a JSON file: `none` models a record on which field
access raises (a non-dict entry), aborting the rest of the file via the
per-file `except` (lines 231-250). -/
abbrev SrcRec := Option DocData

/-- One JSON file of the legal documents directory: `none` models a file on
which `json.load` raises, caught and logged by the per-file `except`. -/
abbrev SrcFile := Option (List SrcRec)

/-- Ingestion state: `self.legal_documents` plus the local `document_count`. -/
abbrev IngestState := List LegalDocument × ℕ

/-- The per-record loop of `_load_legal_database` (lines 235-247) for one
file's record list: a well-formed record is appended (with its embedding) and
counted; a record that raises aborts the remaining records of the file, the
exception being caught at the file level (already-appended records are kept). -/
def processRecs (m : Models) : List SrcRec → IngestState → IngestState
  | [], st => st
  | none :: _, st => st
  | some d :: rest, (docs, n) => processRecs m rest (docs ++ [mkLegalDocument m d], n + 1)

/-- `_load_legal_database` (lines 214-252) over the ordered list of JSON files
found under the documents directory: a file whose load raises is logged and
skipped, and processing continues with the next file. The state threads
`self.legal_documents` and `document_count`. -/
def load_legal_database (m : Models) (files : List SrcFile) (st : IngestState) : IngestState :=
  files.foldl
    (fun st file =>
      match file with
      | none => st
      | some recs => processRecs m recs st)
    st

/-- Sum of squared components (squared Euclidean norm) of a vector. -/
def l2normSq (v : List ℝ) : ℝ := (v.map (fun x => x ^ 2)).sum

/-- Euclidean (L2) norm of a vector. -/
noncomputable def l2norm (v : List ℝ) : ℝ := Real.sqrt (l2normSq v)

/-- `faiss.normalize_L2` on one vector: divide each component by the L2 norm
(a zero vector is left unchanged; in Lean division by zero yields zero, which
matches FAISS leaving zero rows as they are). -/
noncomputable def normalizeL2 (v : List ℝ) : List ℝ := v.map (fun x => x / l2norm v)

/-- `_initialize_vector_store` (lines 254-276): skip (leaving the store
unset, `none`) when no documents are loaded or no embeddings are present;
otherwise L2-normalize every embedding and store the vectors, in document
order, in the inner-product index (modelled as the list of stored vectors).
The local `embeddings` variable of the source is inlined. -/
noncomputable def initialize_vector_store (docs : List LegalDocument) : Option (List (List ℝ)) :=
  if docs.isEmpty then none
  else if (docs.filterMap (fun d => d.embedding)).isEmpty then none
  else some ((docs.filterMap (fun d => d.embedding)).map normalizeL2)

/-- A model set with neither embedding model loaded. -/
def noModels : Models := ⟨none, none⟩

/-- A model set with only the general embeddings model loaded, its opaque
encode function returning a fixed one-component vector. -/
noncomputable def generalOnly : Models := ⟨none, some (fun _ => [1])⟩

/-- A source record with empty content and every other field missing. -/
def emptyContentRec : DocData := ⟨some "", none, none, none, none⟩

/-- A well-formed source record. -/
def validRec : DocData := ⟨some "tenant eviction notice", none, none, none, none⟩

/-- `embeddings` sub-config of `_get_default_config` (lines 100-105). -/
structure EmbeddingsConfig where
  model_name : String
  legal_model_name : String
  dimension : ℕ
  batch_size : ℕ

/-- `whisper` sub-config of `_get_default_config` (lines 106-110). -/
structure WhisperConfig where
  model_size : String
  language : String
  quality_threshold : ℚ

/-- `legal_processing` sub-config of `_get_default_config` (lines 111-116). -/
structure LegalProcessingConfig where
  chunk_size : ℕ
  chunk_overlap : ℕ
  min_relevance_score : ℚ
  max_retrieved_docs : ℕ

/-- `languages` sub-config of `_get_default_config` (lines 117-120). -/
structure LanguagesConfig where
  supported : List String
  default : String

/-- `nvidia_flamingo` sub-config of `_get_default_config` (lines 121-125). -/
structure NvidiaFlamingoConfig where
  enabled : Bool
  quality_fallback_threshold : ℚ
  cost_optimization : Bool

/-- The full RAG configuration dictionary. -/
structure RAGConfig where
  embeddings : EmbeddingsConfig
  whisper : WhisperConfig
  legal_processing : LegalProcessingConfig
  languages : LanguagesConfig
  nvidia_flamingo : NvidiaFlamingoConfig

/-- `_get_default_config` (lines 97-126). -/
def get_default_config : RAGConfig :=
  { embeddings :=
      { model_name := "sentence-transformers/all-MiniLM-L6-v2"
        legal_model_name := "nlpaueb/legal-bert-base-uncased"
        dimension := 384
        batch_size := 32 }
    whisper :=
      { model_size := "large-v3"
        language := "multilingual"
        quality_threshold := 0.7 }
    legal_processing :=
      { chunk_size := 1000
        chunk_overlap := 200
        min_relevance_score := 0.3
        max_retrieved_docs := 5 }
    languages :=
      { supported := ["en", "es", "fr", "de", "zh", "ar", "hi", "ja", "ko", "pt", "it", "ru", "tr"]
        default := "en" }
    nvidia_flamingo :=
      { enabled := true
        quality_fallback_threshold := 0.5
        cost_optimization := true } }

/-- `_load_config` (lines 88-95): the parsed file content when the file
exists (`some`), the built-in defaults when opening raises
`FileNotFoundError` (`none`). -/
def load_config (parsed : Option RAGConfig) : RAGConfig :=
  match parsed with
  | some c => c
  | none => get_default_config

/-- Inner product of two vectors. -/
def dotProduct (x y : List ℝ) : ℝ := (List.zipWith (fun a b => a * b) x y).sum

/-- Ranking relation on `(insertion position, score)` pairs: higher score
first, ties broken by earlier insertion position. -/
def rankLE (a b : ℕ × ℝ) : Prop := b.2 < a.2 ∨ (a.2 = b.2 ∧ a.1 ≤ b.1)

noncomputable instance : DecidableRel rankLE := fun _ _ => Classical.propDecidable _

instance : IsTotal (ℕ × ℝ) rankLE where
  total a b := by
    rcases lt_trichotomy a.2 b.2 with h | h | h
    · exact Or.inr (Or.inl h)
    · rcases le_total a.1 b.1 with h1 | h1
      · exact Or.inl (Or.inr ⟨h, h1⟩)
      · exact Or.inr (Or.inr ⟨h.symm, h1⟩)
    · exact Or.inl (Or.inl h)

instance : IsTrans (ℕ × ℝ) rankLE where
  trans a b c hab hbc := by
    obtain hab | ⟨hab2, hab1⟩ := hab <;> obtain hbc | ⟨hbc2, hbc1⟩ := hbc
    · exact Or.inl (lt_trans hbc hab)
    · exact Or.inl (by rw [← hbc2]; exact hab)
    · exact Or.inl (by rw [hab2]; exact hbc)
    · exact Or.inr ⟨hab2.trans hbc2, le_trans hab1 hbc1⟩

/-- Modelled from the spec: the per-candidate inner-product scores of a query
against the stored vectors, tagged with insertion positions. No search
implementation appears under `src/`; section 4.3 specifies that search
normalizes the query vector and scores candidates by inner product. -/
noncomputable def candidates (idx : List (List ℝ)) (q : List ℝ) : List (ℕ × ℝ) :=
  idx.enum.map (fun p => (p.1, dotProduct (normalizeL2 q) p.2))

/-- Modelled from the spec: `search(query_vector, k)` of section 4.3 — the `k`
highest inner-product matches in descending score order, ties broken by
original insertion order (earlier documents first); an empty index yields an
empty result. No search implementation appears under `src/`. -/
noncomputable def search (idx : List (List ℝ)) (q : List ℝ) (k : ℕ) : List (ℕ × ℝ) :=
  (List.insertionSort rankLE (candidates idx q)).take k

/-- C9: if the configuration file at the given path does not exist, the
pipeline is constructed with the built-in default configuration
(max_retrieved_docs 5, min_relevance_score 0.3, chunk_size 1000,
chunk_overlap 200, embedding dimension 384) instead of failing
(`load_config` is total: the `FileNotFoundError` branch returns the
defaults). -/
theorem missing_config_uses_defaults :
    load_config none = get_default_config
    ∧ get_default_config.legal_processing.max_retrieved_docs = 5
    ∧ get_default_config.legal_processing.min_relevance_score = 3 / 10
    ∧ get_default_config.legal_processing.chunk_size = 1000
    ∧ get_default_config.legal_processing.chunk_overlap = 200
    ∧ get_default_config.embeddings.dimension = 384 :=
  ⟨rfl, rfl, by norm_num [get_default_config], rfl, rfl, rfl⟩

/-- C10: for every source record loaded during database ingestion, missing
fields are filled with fixed defaults before the record is stored: content
defaults to the empty string, metadata to an empty mapping, jurisdiction to
"federal", legal domain to "general", language to "en"; the constructed
record is what the ingestion loop appends to the store. -/
theorem ingestion_field_defaults (m : Models) (d : DocData) :
    (d.content = none → (mkLegalDocument m d).content = "")
    ∧ (d.metadata = none → (mkLegalDocument m d).metadata = [])
    ∧ (d.jurisdiction = none → (mkLegalDocument m d).jurisdiction = "federal")
    ∧ (d.legal_domain = none → (mkLegalDocument m d).legal_domain = "general")
    ∧ (d.language = none → (mkLegalDocument m d).language = "en")
    ∧ (∀ st recs, processRecs m (some d :: recs) st =
        processRecs m recs (st.1 ++ [mkLegalDocument m d], st.2 + 1)) := by
  refine ⟨fun h => by simp [mkLegalDocument, h], fun h => by simp [mkLegalDocument, h],
    fun h => by simp [mkLegalDocument, h], fun h => by simp [mkLegalDocument, h],
    fun h => by simp [mkLegalDocument, h], fun st recs => ?_⟩
  obtain ⟨docs, n⟩ := st
  rfl

/-- Witness for C10 at a record with every field missing. -/
theorem ingestion_field_defaults_witness :
    (mkLegalDocument ⟨none, none⟩ ⟨none, none, none, none, none⟩).content = ""
    ∧ (mkLegalDocument ⟨none, none⟩ ⟨none, none, none, none, none⟩).metadata = []
    ∧ (mkLegalDocument ⟨none, none⟩ ⟨none, none, none, none, none⟩).jurisdiction = "federal"
    ∧ (mkLegalDocument ⟨none, none⟩ ⟨none, none, none, none, none⟩).legal_domain = "general"
    ∧ (mkLegalDocument ⟨none, none⟩ ⟨none, none, none, none, none⟩).language = "en" :=
  ⟨(ingestion_field_defaults ⟨none, none⟩ _).1 rfl,
   (ingestion_field_defaults ⟨none, none⟩ _).2.1 rfl,
   (ingestion_field_defaults ⟨none, none⟩ _).2.2.1 rfl,
   (ingestion_field_defaults ⟨none, none⟩ _).2.2.2.1 rfl,
   (ingestion_field_defaults ⟨none, none⟩ _).2.2.2.2.1 rfl⟩

/-- C2: the embedding selector evaluates its policy in fixed priority order:
if the legal BERT model is loaded and the text is shorter than 512
characters, it is used; otherwise, if the general-purpose embeddings model
is loaded, that model is used. -/
theorem embedding_selector_priority (m : Models) (t : String) :
    (∀ f, m.legal_bert_model = some f → t.length < 512 →
      embedChoice m t = EmbedChoice.legalBert ∧ generate_embedding m t = f t)
    ∧ (∀ g, (m.legal_bert_model = none ∨ ¬ t.length < 512) → m.embeddings_model = some g →
      embedChoice m t = EmbedChoice.general ∧ generate_embedding m t = g t) := by
  constructor
  · intro f hf hlen
    simp [embedChoice, generate_embedding, hf, hlen]
  · intro g hbert hg
    rcases hbert with hb | hlen
    · simp [embedChoice, generate_embedding, hb, hg]
    · cases hm : m.legal_bert_model with
      | none => simp [embedChoice, generate_embedding, hm, hg]
      | some f => simp [embedChoice, generate_embedding, hm, hg, hlen]

/-- Witness for C2: a short text with both models loaded selects legal BERT;
with only the general model loaded, the general model is selected. -/
theorem embedding_selector_priority_witness :
    embedChoice ⟨some (fun _ => [1]), some (fun _ => [0])⟩ "hi" = EmbedChoice.legalBert
    ∧ embedChoice ⟨none, some (fun _ => [0])⟩ "hi" = EmbedChoice.general :=
  ⟨((embedding_selector_priority ⟨some (fun _ => [1]), some (fun _ => [0])⟩ "hi").1
      (fun _ => [1]) rfl (by decide)).1,
   ((embedding_selector_priority ⟨none, some (fun _ => [0])⟩ "hi").2
      (fun _ => [0]) (Or.inl rfl) rfl).1⟩

/-- C8: embedding is deterministic — for a fixed pair of input text and
loaded-model set, two invocations of `generate_embedding` yield the same
vector and the same branch choice (the selector is a pure function of its
inputs; the code has no `purpose` parameter, so determinism in the claimed
triple follows). -/
theorem embedding_deterministic (m₁ m₂ : Models) (t₁ t₂ : String)
    (hm : m₁ = m₂) (ht : t₁ = t₂) :
    generate_embedding m₁ t₁ = generate_embedding m₂ t₂
    ∧ embedChoice m₁ t₁ = embedChoice m₂ t₂ := by
  subst hm; subst ht; exact ⟨rfl, rfl⟩

/-- Witness for C8 at a concrete model set and text. -/
theorem embedding_deterministic_witness :
    generate_embedding ⟨none, none⟩ "a" = generate_embedding ⟨none, none⟩ "a"
    ∧ embedChoice ⟨none, none⟩ "a" = embedChoice ⟨none, none⟩ "a" :=
  embedding_deterministic ⟨none, none⟩ ⟨none, none⟩ "a" "a" rfl rfl

/-- C3 counterexample: a record with empty content submitted during ingestion
is not rejected — it is stored (with content "") and counted together with
the following valid record, and it carries a generated embedding; the load
result has no rejected total at all. -/
theorem empty_content_accepted_cex :
    load_legal_database generalOnly [some [some emptyContentRec, some validRec]] ([], 0)
      = ([mkLegalDocument generalOnly emptyContentRec, mkLegalDocument generalOnly validRec], 2)
    ∧ (mkLegalDocument generalOnly emptyContentRec).content = ""
    ∧ (mkLegalDocument generalOnly emptyContentRec).embedding = some [1] :=
  ⟨rfl, rfl, rfl⟩

/-- C3 amended: a document record with empty content is accepted, not
rejected — it is appended to the store with content "" and counted, and the
records after it are processed unchanged; no InvalidDocument rejection path
exists in `_load_legal_database`. -/
theorem empty_content_ingested (m : Models) (st : IngestState) (recs : List SrcRec)
    (d : DocData) (h : d.content = some "") :
    processRecs m (some d :: recs) st
      = processRecs m recs (st.1 ++ [mkLegalDocument m d], st.2 + 1)
    ∧ (mkLegalDocument m d).content = "" := by
  constructor
  · obtain ⟨docs, n⟩ := st; rfl
  · simp [mkLegalDocument, h]

/-- Witness for C3's amended claim at a concrete empty-content record. -/
theorem empty_content_ingested_witness :
    emptyContentRec.content = some ""
    ∧ (processRecs generalOnly [some emptyContentRec] ([], 0)
        = processRecs generalOnly []
            (([] : List LegalDocument) ++ [mkLegalDocument generalOnly emptyContentRec], 0 + 1)
      ∧ (mkLegalDocument generalOnly emptyContentRec).content = "") :=
  ⟨rfl, empty_content_ingested generalOnly ([], 0) [] emptyContentRec rfl⟩

/-- Count invariant of the per-file record loop: the added document count
equals the number of appended documents; nothing counts failures. -/
theorem processRecs_count (m : Models) (recs : List SrcRec) (st : IngestState) :
    ∃ n, (processRecs m recs st).2 = st.2 + n
      ∧ (processRecs m recs st).1.length = st.1.length + n := by
  induction recs generalizing st with
  | nil => exact ⟨0, rfl, rfl⟩
  | cons r rest ih =>
    obtain ⟨docs, k⟩ := st
    cases r with
    | none => exact ⟨0, rfl, rfl⟩
    | some d =>
      obtain ⟨n, h1, h2⟩ := ih (docs ++ [mkLegalDocument m d], k + 1)
      have hstep : processRecs m (some d :: rest) (docs, k)
          = processRecs m rest (docs ++ [mkLegalDocument m d], k + 1) := rfl
      refine ⟨n + 1, ?_, ?_⟩
      · rw [hstep, h1]; omega
      · rw [hstep, h2, List.length_append]; simp; omega

/-- Count invariant of `_load_legal_database`: the returned count equals the
number of documents appended across all files. -/
theorem load_legal_database_count (m : Models) (files : List SrcFile) (st : IngestState) :
    ∃ n, (load_legal_database m files st).2 = st.2 + n
      ∧ (load_legal_database m files st).1.length = st.1.length + n := by
  induction files generalizing st with
  | nil => exact ⟨0, rfl, rfl⟩
  | cons f rest ih =>
    cases f with
    | none =>
      have hstep : load_legal_database m (none :: rest) st = load_legal_database m rest st := rfl
      rw [hstep]; exact ih st
    | some recs =>
      have hstep : load_legal_database m (some recs :: rest) st
          = load_legal_database m rest (processRecs m recs st) := rfl
      rw [hstep]
      obtain ⟨n1, h1, h2⟩ := processRecs_count m recs st
      obtain ⟨n2, g1, g2⟩ := ih (processRecs m recs st)
      exact ⟨n1 + n2, by rw [g1, h1]; omega, by rw [g2, h2]; omega⟩

/-- C4 counterexample: a malformed record does halt ingestion of the
remainder of its file (the valid record after it is never loaded), and the
load result carries no failure counter — a batch with no malformed records
and a batch with two malformed records produce identical results. -/
theorem malformed_record_halts_file_cex :
    load_legal_database generalOnly [some [none, some validRec]] ([], 0) = ([], 0)
    ∧ load_legal_database generalOnly [some [some validRec]] ([], 0)
      = load_legal_database generalOnly [none, some [some validRec, none]] ([], 0) :=
  ⟨rfl, rfl⟩

/-- C4 amended: a malformed source file is logged and skipped without
aborting the batch; a malformed record aborts the remaining records of its
own file (already-appended records are kept); no failure counter is
maintained or returned — the only aggregate is the count of successfully
loaded documents, which always equals the number of documents appended. -/
theorem malformed_skip_no_failure_counter (m : Models) (files : List SrcFile)
    (st : IngestState) :
    load_legal_database m (none :: files) st = load_legal_database m files st
    ∧ (∃ n, (load_legal_database m files st).2 = st.2 + n
        ∧ (load_legal_database m files st).1.length = st.1.length + n)
    ∧ (∀ recs st2, processRecs m (none :: recs) st2 = st2) :=
  ⟨rfl, load_legal_database_count m files st, fun _ _ => rfl⟩

/-- Squared norm of the all-zero vector. -/
theorem l2normSq_replicate_zero (n : ℕ) : l2normSq (List.replicate n (0:ℝ)) = 0 := by
  simp [l2normSq]

/-- FAISS normalization leaves the all-zero vector unchanged. -/
theorem normalizeL2_replicate_zero (n : ℕ) :
    normalizeL2 (List.replicate n (0:ℝ)) = List.replicate n 0 := by
  simp [normalizeL2]

/-- C1 counterexample: with neither model loaded, `_generate_embedding` does
not fail — it takes the fallback branch and returns the all-zero
384-dimensional vector; a document ingested under this model set is stored
with that zero embedding (no degraded flag exists in `LegalDocument`), and
the vector store indexes the zero vector as a normal entry. -/
theorem zero_vector_indexed_cex :
    embedChoice noModels "x" = EmbedChoice.fallbackZero
    ∧ generate_embedding noModels "x" = List.replicate 384 0
    ∧ load_legal_database noModels [some [some validRec]] ([], 0)
        = ([mkLegalDocument noModels validRec], 1)
    ∧ (mkLegalDocument noModels validRec).embedding = some (List.replicate 384 0)
    ∧ initialize_vector_store [mkLegalDocument noModels validRec]
        = some [List.replicate 384 0] := by
  refine ⟨rfl, rfl, rfl, rfl, ?_⟩
  have h1 : initialize_vector_store [mkLegalDocument noModels validRec]
      = some ([List.replicate 384 (0:ℝ)].map normalizeL2) := rfl
  rw [h1, List.map_cons, List.map_nil, normalizeL2_replicate_zero]

/-- C1 amended: if neither a domain-specific nor a general-purpose embedding
model is loaded, the embedding operation does not raise
`NoEmbeddingModelAvailable`: it logs an error and returns the all-zero
384-dimensional vector through the ordinary return path, with no degraded
flag, and its callers index it like any other embedding. -/
theorem no_model_zero_fallback (m : Models) (t : String)
    (h1 : m.legal_bert_model = none) (h2 : m.embeddings_model = none) :
    embedChoice m t = EmbedChoice.fallbackZero
    ∧ generate_embedding m t = List.replicate 384 0 := by
  simp [embedChoice, generate_embedding, h1, h2]

/-- Witness for C1's amended claim at the empty model set. -/
theorem no_model_zero_fallback_witness :
    embedChoice noModels "abc" = EmbedChoice.fallbackZero
    ∧ generate_embedding noModels "abc" = List.replicate 384 0 :=
  no_model_zero_fallback noModels "abc" rfl rfl

/-- A squared norm is a sum of squares, hence nonnegative. -/
theorem l2normSq_nonneg (v : List ℝ) : 0 ≤ l2normSq v :=
  List.sum_nonneg fun x hx => by
    obtain ⟨y, _, rfl⟩ := List.mem_map.mp hx
    exact sq_nonneg y

/-- Scaling every component by `1 / c` divides the squared norm by `c ^ 2`. -/
theorem l2normSq_map_div (v : List ℝ) (c : ℝ) :
    l2normSq (v.map (fun x => x / c)) = l2normSq v / c ^ 2 := by
  induction v with
  | nil => simp [l2normSq]
  | cons x xs ih =>
    simp only [l2normSq, List.map_cons, List.sum_cons] at ih ⊢
    rw [ih, div_pow, div_add_div_same]

/-- A vector of nonzero norm has squared norm 1 after L2 normalization. -/
theorem l2normSq_normalizeL2 (v : List ℝ) (h : l2normSq v ≠ 0) :
    l2normSq (normalizeL2 v) = 1 := by
  rw [normalizeL2, l2normSq_map_div, l2norm, Real.sq_sqrt (l2normSq_nonneg v)]
  exact div_self h

/-- Every normalized vector has norm 1 or is all zeros (the latter exactly
when the source vector was all zeros, e.g. the degraded embedding fallback). -/
theorem normalizeL2_norm_one_or_zero (v : List ℝ) :
    l2norm (normalizeL2 v) = 1 ∨ ∀ x ∈ normalizeL2 v, x = 0 := by
  by_cases h : l2normSq v = 0
  · right
    intro x hx
    obtain ⟨y, _, rfl⟩ := List.mem_map.mp hx
    rw [l2norm, h, Real.sqrt_zero, div_zero]
  · left
    rw [l2norm, l2normSq_normalizeL2 v h, Real.sqrt_one]

/-- C5 counterexample: the index built over a document carrying the zero
embedding (the no-model fallback) stores the zero vector, whose Euclidean
norm is 0, not 1 — `faiss.normalize_L2` leaves zero rows unchanged. -/
theorem zero_vector_not_normalized_cex :
    initialize_vector_store [mkLegalDocument noModels validRec]
      = some [List.replicate 384 0]
    ∧ l2norm (List.replicate 384 (0:ℝ)) = 0
    ∧ l2norm (List.replicate 384 (0:ℝ)) ≠ 1 := by
  refine ⟨?_, ?_, ?_⟩
  · have h1 : initialize_vector_store [mkLegalDocument noModels validRec]
        = some ([List.replicate 384 (0:ℝ)].map normalizeL2) := rfl
    rw [h1, List.map_cons, List.map_nil, normalizeL2_replicate_zero]
  · rw [l2norm, l2normSq_replicate_zero, Real.sqrt_zero]
  · rw [l2norm, l2normSq_replicate_zero, Real.sqrt_zero]
    norm_num

/-- C5 amended: after the vector index is built, every stored vector has
Euclidean norm 1 except a vector coming from an all-zero embedding (the
degraded fallback), which is stored as the zero vector; inner-product search
computes cosine similarity on the norm-1 vectors. -/
theorem vector_store_normalized_or_zero (docs : List LegalDocument) (idx : List (List ℝ))
    (h : initialize_vector_store docs = some idx) :
    ∀ w ∈ idx, l2norm w = 1 ∨ ∀ x ∈ w, x = 0 := by
  intro w hw
  simp only [initialize_vector_store] at h
  split_ifs at h with h1 h2
  obtain rfl := Option.some.inj h
  obtain ⟨v, _, rfl⟩ := List.mem_map.mp hw
  exact normalizeL2_norm_one_or_zero v

/-- Witness for C5's amended claim over a one-document corpus. -/
theorem vector_store_normalized_or_zero_witness :
    initialize_vector_store [mkLegalDocument generalOnly validRec]
      = some [normalizeL2 [1]]
    ∧ ∀ w ∈ [normalizeL2 [(1:ℝ)]], l2norm w = 1 ∨ ∀ x ∈ w, x = 0 := by
  have hEval : initialize_vector_store [mkLegalDocument generalOnly validRec]
      = some [normalizeL2 [1]] := rfl
  exact ⟨hEval, vector_store_normalized_or_zero _ _ hEval⟩

/-- Every document appended by the per-record loop carries an embedding. -/
theorem processRecs_embedding_isSome (m : Models) (recs : List SrcRec) (st : IngestState)
    (h : ∀ d ∈ st.1, d.embedding.isSome) :
    ∀ d ∈ (processRecs m recs st).1, d.embedding.isSome := by
  induction recs generalizing st with
  | nil => exact h
  | cons r rest ih =>
    obtain ⟨docs, n⟩ := st
    cases r with
    | none => exact h
    | some d =>
      refine ih (docs ++ [mkLegalDocument m d], n + 1) ?_
      intro d2 hd2
      rcases List.mem_append.mp hd2 with hd2 | hd2
      · exact h d2 hd2
      · simp only [List.mem_singleton] at hd2
        subst hd2
        simp [mkLegalDocument]

/-- Every document loaded by `_load_legal_database` carries an embedding
(ingestion populates it synchronously). -/
theorem load_embedding_isSome (m : Models) (files : List SrcFile) (st : IngestState)
    (h : ∀ d ∈ st.1, d.embedding.isSome) :
    ∀ d ∈ (load_legal_database m files st).1, d.embedding.isSome := by
  induction files generalizing st with
  | nil => exact h
  | cons f rest ih =>
    cases f with
    | none => exact ih st h
    | some recs => exact ih (processRecs m recs st) (processRecs_embedding_isSome m recs st h)

/-- When every document has an embedding, extracting the embeddings keeps
one vector per document, in document order. -/
theorem filterMap_embedding_eq_map (docs : List LegalDocument)
    (h : ∀ d ∈ docs, d.embedding.isSome) :
    docs.filterMap (fun d => d.embedding) = docs.map (fun d => d.embedding.getD []) := by
  induction docs with
  | nil => rfl
  | cons d rest ih =>
    have hd := h d (List.mem_cons_self d rest)
    obtain ⟨v, hv⟩ := Option.isSome_iff_exists.mp hd
    simp only [List.filterMap_cons, List.map_cons, hv, Option.getD_some]
    exact congrArg _ (ih fun d2 hd2 => h d2 (List.mem_cons_of_mem _ hd2))

/-- C6: after index build over the loaded document store, the number of
stored vectors equals the number of backing documents (the identifier space
is the insertion order), and the vector at each position is the normalized
embedding of the document at the same position. -/
theorem vector_store_parallel_order (m : Models) (files : List SrcFile) (idx : List (List ℝ))
    (h : initialize_vector_store (load_legal_database m files ([], 0)).1 = some idx) :
    idx.length = (load_legal_database m files ([], 0)).1.length
    ∧ ∀ i : ℕ, idx[i]? = ((load_legal_database m files ([], 0)).1[i]?).map
        (fun d => normalizeL2 (d.embedding.getD [])) := by
  have hall : ∀ d ∈ (load_legal_database m files ([], 0)).1, d.embedding.isSome :=
    load_embedding_isSome m files ([], 0) (by intro d hd; simp at hd)
  simp only [initialize_vector_store] at h
  split_ifs at h with h1 h2
  rw [filterMap_embedding_eq_map _ hall] at h
  obtain rfl := Option.some.inj h
  constructor
  · simp
  · intro i
    simp only [List.map_map, List.getElem?_map]
    rfl

/-- Witness for C6 over a one-file, one-record batch. -/
theorem vector_store_parallel_order_witness :
    initialize_vector_store
        (load_legal_database generalOnly [some [some validRec]] ([], 0)).1
      = some [normalizeL2 [1]]
    ∧ [normalizeL2 [(1:ℝ)]].length
        = (load_legal_database generalOnly [some [some validRec]] ([], 0)).1.length := by
  have hEval : initialize_vector_store
      (load_legal_database generalOnly [some [some validRec]] ([], 0)).1
      = some [normalizeL2 [1]] := rfl
  exact ⟨hEval, (vector_store_parallel_order generalOnly [some [some validRec]] _ hEval).1⟩

/-- C7: `search` returns the `k` highest inner-product matches, sorted in
non-increasing score order with ties broken by original insertion order
(earlier positions first); the result pairs each returned position with its
score, has length `min k (corpus size)`, the returned entries dominate all
non-returned candidates, and an empty index yields an empty result rather
than a failure. -/
theorem search_top_k_sorted (idx : List (List ℝ)) (q : List ℝ) (k : ℕ) :
    List.Pairwise rankLE (search idx q k)
    ∧ (search idx q k).length = min k idx.length
    ∧ (∃ rest, (candidates idx q).Perm (search idx q k ++ rest)
        ∧ ∀ s ∈ search idx q k, ∀ r ∈ rest, rankLE s r)
    ∧ search [] q k = [] := by
  have hsorted : List.Sorted rankLE (List.insertionSort rankLE (candidates idx q)) :=
    List.sorted_insertionSort rankLE (candidates idx q)
  refine ⟨?_, ?_, ?_, ?_⟩
  · exact List.Pairwise.sublist (List.take_sublist k _) hsorted
  · show ((List.insertionSort rankLE (candidates idx q)).take k).length = min k idx.length
    rw [List.length_take, (List.perm_insertionSort rankLE _).length_eq]
    simp [candidates]
  · refine ⟨(List.insertionSort rankLE (candidates idx q)).drop k, ?_, ?_⟩
    · show (candidates idx q).Perm ((List.insertionSort rankLE (candidates idx q)).take k
        ++ (List.insertionSort rankLE (candidates idx q)).drop k)
      rw [List.take_append_drop]
      exact (List.perm_insertionSort rankLE (candidates idx q)).symm
    · intro s hs r hr
      have hsplit : List.Pairwise rankLE
          ((List.insertionSort rankLE (candidates idx q)).take k
            ++ (List.insertionSort rankLE (candidates idx q)).drop k) := by
        rw [List.take_append_drop]
        exact hsorted
      exact (List.pairwise_append.mp hsplit).2.2 s hs r hr
  · show (List.insertionSort rankLE (candidates [] q)).take k = []
    simp [candidates, List.insertionSort]

/-- Witness for C7 at a concrete two-vector index. -/
theorem search_top_k_sorted_witness :
    List.Pairwise rankLE (search [[(1:ℝ), 0], [0, 1]] [1, 0] 1)
    ∧ (search [[(1:ℝ), 0], [0, 1]] [1, 0] 1).length = min 1 [[(1:ℝ), 0], [0, 1]].length
    ∧ (∃ rest, (candidates [[(1:ℝ), 0], [0, 1]] [1, 0]).Perm
          (search [[(1:ℝ), 0], [0, 1]] [1, 0] 1 ++ rest)
        ∧ ∀ s ∈ search [[(1:ℝ), 0], [0, 1]] [1, 0] 1, ∀ r ∈ rest, rankLE s r)
    ∧ search [] [(1:ℝ), 0] 1 = [] :=
  search_top_k_sorted [[(1:ℝ), 0], [0, 1]] [1, 0] 1

end LegalRAG
